import Mathlib

set_option maxHeartbeats 1000000

/-!
Verification of the netstack ARP slice (src/tcpip/network/arp/arp.go):
the ARP network endpoint, the address-resolution subsystem installed by
NewLinkAddressLookup, and the intrusive icmpPacketList used to queue
packet buffers.

The collaborating packages (tcpip, buffer, header, stack) are not part of
the source slice; where the code reads from them, the values read are
modelled as explicit parameters, following the spec's description of those
collaborators.
-/

/-- Protocol (network-layer) addresses, modelled as byte-value lists. -/
abbrev Address := List Nat

/-- Link-layer (hardware) addresses, modelled as byte-value lists. -/
abbrev LinkAddress := List Nat

/-- Modelled from the spec: the ARP operation code for a Request
(header.ARPRequest). -/
def ARPRequest : Nat := 1

/-- Modelled from the spec: the ARP operation code for a Reply
(header.ARPReply). -/
def ARPReply : Nat := 2

/-- Modelled from the spec: the fixed ARP frame size constant header.ARPSize
for IPv4 over Ethernet: 2+2+1+1+2 fixed bytes plus two 6-byte hardware
addresses and two 4-byte protocol addresses. -/
def ARPSize : Nat := 28

/-- Modelled from the spec: a wire-level ARP frame (header.ARP), with its
fixed fields: hardware/protocol address space and size fields, the operation
code, and the four address fields. -/
structure ARPFrame where
  hardwareAddressSpace : Nat
  protocolAddressSpace : Nat
  hardwareAddressSize : Nat
  protocolAddressSize : Nat
  op : Nat
  hardwareAddressSender : LinkAddress
  protocolAddressSender : Address
  hardwareAddressTarget : LinkAddress
  protocolAddressTarget : Address
  deriving DecidableEq

/-- Modelled from the spec: header.ARP.IsValid — structural validity of
size/fields: Ethernet hardware space, IPv4 protocol space, the 6/4 address
size fields, and address fields of the corresponding byte lengths. -/
def isValid (f : ARPFrame) : Bool :=
  f.hardwareAddressSpace == 1 && f.protocolAddressSpace == 2048 &&
  f.hardwareAddressSize == 6 && f.protocolAddressSize == 4 &&
  f.hardwareAddressSender.length == 6 && f.protocolAddressSender.length == 4 &&
  f.hardwareAddressTarget.length == 6 && f.protocolAddressTarget.length == 4

/-- The ARP network endpoint (struct endpoint in arp.go). The opaque
collaborators are modelled by the data the code reads from them:
`linkMTU` is linkEP.MTU(), `linkMaxHeaderLength` is
linkEP.MaxHeaderLength() (a uint16), `hasHandler` is whether the optional
secondary handler is non-nil, and `checkLocalAddress a` is
stack.CheckLocalAddress(0, a) (0 meaning no local NIC owns a). -/
structure endpoint where
  nicid : Nat
  linkMTU : Nat
  linkMaxHeaderLength : Nat
  hasHandler : Bool
  checkLocalAddress : Address → Nat

/-- endpoint.MaxHeaderLength: e.linkEP.MaxHeaderLength() + header.ARPSize,
computed in uint16 arithmetic. -/
def endpoint.MaxHeaderLength (e : endpoint) : Nat :=
  (e.linkMaxHeaderLength + ARPSize) % 65536

/-- Go uint32 subtraction a - b (wraparound modulo 2^32), for a < 2^32. -/
def sub32 (a b : Nat) : Nat := (a + 4294967296 - b % 4294967296) % 4294967296

/-- endpoint.MTU: lmtu - uint32(e.MaxHeaderLength()), an unsigned 32-bit
subtraction of the endpoint's max header length from the link MTU. -/
def endpoint.MTU (e : endpoint) : Nat := sub32 e.linkMTU e.MaxHeaderLength

/-- The route handed to HandlePacket; the code reads only its local link
address. -/
structure Route where
  localLinkAddress : LinkAddress
  deriving DecidableEq

/-- The error values the slice returns (tcpip.ErrTimeout). -/
inductive NetError where
  | timeout
  deriving DecidableEq

/-- Outcome of a Go call: a normal return or a runtime panic, which aborts
the process. -/
inductive GoOutcome (α : Type) where
  | returns (a : α)
  | panicked (msg : String)
  deriving DecidableEq

/-- endpoint.WritePacket: the body is exactly panic("arp.WritePacket TODO"),
for every route, header, payload and transport protocol number. -/
def endpoint.WritePacket (_e : endpoint) (_r : Route) (_hdrSpace : Nat)
    (_payload : List Nat) (_protocol : Nat) : GoOutcome (Option NetError) :=
  .panicked "arp.WritePacket TODO"

/-- The observable effects of one endpoint.HandlePacket call: the frames
transmitted through the link endpoint (with the header space reserved in
front of each), and the view handed to the optional secondary handler. -/
structure HandleExec where
  transmitted : List (Nat × ARPFrame)
  handlerArg : Option ARPFrame
  deriving DecidableEq

/-- endpoint.HandlePacket: drops structurally invalid frames; drops frames
whose target protocol address is not locally owned; on a Request, mutates the
view in place (op := Reply, sender hardware address := the route's local link
address, sender protocol address := the target protocol address) and
transmits it with linkEP.MaxHeaderLength() bytes of header space; finally
hands the (possibly mutated) view to the secondary handler if one is set. -/
def endpoint.HandlePacket (e : endpoint) (r : Route) (v : ARPFrame) : HandleExec :=
  if isValid v then
    let localAddr := v.protocolAddressTarget
    let nic := e.checkLocalAddress localAddr
    if nic = 0 then { transmitted := [], handlerArg := none }
    else
      let v2 :=
        if v.op = ARPRequest then
          { v with op := ARPReply,
                   hardwareAddressSender := r.localLinkAddress,
                   protocolAddressSender := v.protocolAddressTarget }
        else v
      let tx := if v.op = ARPRequest then [(e.linkMaxHeaderLength, v2)] else []
      { transmitted := tx,
        handlerArg := if e.hasHandler then some v2 else none }
  else { transmitted := [], handlerArg := none }

/-- Channels are identified by an id. -/
abbrev ChanId := Nat

/-- The waiter registry of NewLinkAddressLookup: the map from notification
channel to the address being waited on, modelled as an association list with
distinct keys. -/
abbrev WaitMap := List (ChanId × Address)

/-- delete(wait, ch): remove the entry keyed by ch. -/
def waitDelete : WaitMap → ChanId → WaitMap
  | [], _ => []
  | (c, a) :: w, ch => if c = ch then waitDelete w ch else (c, a) :: waitDelete w ch

/-- wait[ch]: the address an entry keyed by ch waits for, if present. -/
def waitLookup : WaitMap → ChanId → Option Address
  | [], _ => none
  | (c, a) :: w, ch => if c = ch then some a else waitLookup w ch

/-- The observable effects of one call of the protocol handler installed by
NewLinkAddressLookup: the AddLinkAddrCache upserts performed (nic, protocol
address, link address), the successful non-blocking channel deliveries, the
waiter registry afterwards, and the returned consumed flag. -/
structure HandlerExec where
  cacheOps : List (Nat × Address × LinkAddress)
  notified : List (ChanId × LinkAddress)
  waitAfter : WaitMap
  consumed : Bool
  deriving DecidableEq

/-- The protocol handler installed by NewLinkAddressLookup via
s.SetNetworkProtocolHandler. It performs no structural validation: it reads
the sender fields, unconditionally calls AddLinkAddrCache with the nic that
CheckLocalAddress reports for the target address (0 included), returns false
for non-Replies, and for Replies scans the waiter registry, attempting one
non-blocking delivery per matching waiter and deleting every matching entry.
`ready ch` models whether the waiter on channel ch is blocked in its select
and hence ready to receive the non-blocking send at that instant. -/
def handleARP (chk : Address → Nat) (ready : ChanId → Bool) (wait : WaitMap)
    (v : ARPFrame) : HandlerExec :=
  let nic := chk v.protocolAddressTarget
  let addr := v.protocolAddressSender
  let linkAddr := v.hardwareAddressSender
  let cacheOps := [(nic, addr, linkAddr)]
  if v.op ≠ ARPReply then
    { cacheOps := cacheOps, notified := [], waitAfter := wait, consumed := false }
  else
    { cacheOps := cacheOps,
      notified := (wait.filter fun p => p.2 == addr && ready p.1).map fun p => (p.1, linkAddr),
      waitAfter := wait.filter fun p => !(p.2 == addr),
      consumed := false }

/-- One nanosecond-denominated second (time.Second). -/
def second : Nat := 1000000000

/-- The fixed resolution timeout of the resolve closure: 15 * time.Second. -/
def arpWait : Nat := 15 * second

/-- The observable behaviour of one call of the resolve closure returned by
NewLinkAddressLookup: the contents of the waiter registry while the call is
blocked in its select, the returned (link address, error) pair, and the
registry after the call finishes. -/
structure ResolveExec where
  registryDuringBlock : WaitMap
  result : LinkAddress × Option NetError
  registryAfter : WaitMap
  deriving DecidableEq

/-- The resolve closure returned by NewLinkAddressLookup. `ch` is the
identity of the channel it freshly allocates, and `arrival`, when present,
is the time (in nanoseconds after the call) and value of a send on that
channel. Faithful to the source: between the channel allocation and the
select the closure only prints — nothing inserts ch into the wait registry —
and on the timeout branch it deletes ch from the registry under the mutex
and returns tcpip.ErrTimeout with an empty address. -/
def lookupResolve (wait : WaitMap) (_addr : Address) (ch : ChanId)
    (arrival : Option (Nat × LinkAddress)) : ResolveExec :=
  let received : Option LinkAddress :=
    match arrival with
    | some (t, la) => if t < arpWait then some la else none
    | none => none
  { registryDuringBlock := wait,
    result := match received with
      | some la => (la, none)
      | none => ([], some NetError.timeout),
    registryAfter := match received with
      | some _ => wait
      | none => waitDelete wait ch }

/-- A sequence of resolve calls, each for its own address and channel, none
of which ever receives a delivery, starting from an empty registry; returns
the registry left after the last timeout. -/
def sequentialTimeouts (calls : List (Address × ChanId)) : WaitMap :=
  calls.foldl (fun w c => (lookupResolve w c.1 c.2 none).registryAfter) []

/-- The link fields embedded in a packet node (icmpPacketEntry): the next and
prev pointers, each nil or the id of another node. -/
structure Node where
  next : Option Nat
  prev : Option Nat
  deriving DecidableEq

/-- The node heap: the link fields of every packet node, addressed by node
id. Nodes live outside the list; the list owns only the link topology. -/
abbrev Heap := Nat → Node

/-- Write node i's link fields. -/
def hupd (hp : Heap) (i : Nat) (nd : Node) : Heap :=
  fun j => if j = i then nd else hp j

/-- e.SetNext(v) on node i. -/
def setNext (hp : Heap) (i : Nat) (v : Option Nat) : Heap :=
  hupd hp i ⟨v, (hp i).prev⟩

/-- e.SetPrev(v) on node i. -/
def setPrev (hp : Heap) (i : Nat) (v : Option Nat) : Heap :=
  hupd hp i ⟨(hp i).next, v⟩

/-- The intrusive doubly-linked list header (struct icmpPacketList): head and
tail pointers, each nil or a node id. -/
structure icmpPacketList where
  head : Option Nat
  tail : Option Nat
  deriving DecidableEq

/-- Reset: clears head and tail. -/
def icmpPacketList.Reset (_l : icmpPacketList) : icmpPacketList :=
  { head := none, tail := none }

/-- Empty: true iff the head is nil. -/
def icmpPacketList.Empty (l : icmpPacketList) : Bool :=
  l.head == none

/-- Front: the first element or nil. -/
def icmpPacketList.Front (l : icmpPacketList) : Option Nat :=
  l.head

/-- Back: the last element or nil. -/
def icmpPacketList.Back (l : icmpPacketList) : Option Nat :=
  l.tail

/-- PushFront: e.SetNext(l.head); e.SetPrev(nil); if the list was non-empty
the old head's prev is set to e, otherwise the tail becomes e; the head
becomes e. -/
def icmpPacketList.PushFront (l : icmpPacketList) (hp : Heap) (e : Nat) :
    icmpPacketList × Heap :=
  let hp := setNext hp e l.head
  let hp := setPrev hp e none
  match l.head with
  | some hd => ({ head := some e, tail := l.tail }, setPrev hp hd (some e))
  | none => ({ head := some e, tail := some e }, hp)

/-- PushBack: e.SetNext(nil); e.SetPrev(l.tail); if the list was non-empty
the old tail's next is set to e, otherwise the head becomes e; the tail
becomes e. -/
def icmpPacketList.PushBack (l : icmpPacketList) (hp : Heap) (e : Nat) :
    icmpPacketList × Heap :=
  let hp := setNext hp e none
  let hp := setPrev hp e l.tail
  match l.tail with
  | some tl => ({ head := l.head, tail := some e }, setNext hp tl (some e))
  | none => ({ head := some e, tail := some e }, hp)

/-- PushBackList: splices list m onto l's tail and empties m. When l is
non-empty and m is non-empty the code dereferences l.tail; a nil l.tail in
that case is the Go nil-pointer fault, returned as none. -/
def icmpPacketList.PushBackList (l m : icmpPacketList) (hp : Heap) :
    Option (icmpPacketList × icmpPacketList × Heap) :=
  match l.head with
  | none => some ({ head := m.head, tail := m.tail }, { head := none, tail := none }, hp)
  | some _ =>
    match m.head with
    | none => some (l, { head := none, tail := none }, hp)
    | some mh =>
      match l.tail with
      | none => none
      | some lt =>
        let hp := setNext hp lt (some mh)
        let hp := setPrev hp mh (some lt)
        some ({ head := l.head, tail := m.tail }, { head := none, tail := none }, hp)

/-- InsertAfter b e: a := b.Next(); e.SetNext(a); e.SetPrev(b);
b.SetNext(e); if a was nil the tail becomes e, else a's prev is set to e. -/
def icmpPacketList.InsertAfter (l : icmpPacketList) (hp : Heap) (b e : Nat) :
    icmpPacketList × Heap :=
  let a := (hp b).next
  let hp := setNext hp e a
  let hp := setPrev hp e (some b)
  let hp := setNext hp b (some e)
  match a with
  | some an => (l, setPrev hp an (some e))
  | none => ({ head := l.head, tail := some e }, hp)

/-- InsertBefore a e: b := a.Prev(); e.SetNext(a); e.SetPrev(b);
a.SetPrev(e); if b was nil the head becomes e, else b's next is set to e. -/
def icmpPacketList.InsertBefore (l : icmpPacketList) (hp : Heap) (a e : Nat) :
    icmpPacketList × Heap :=
  let b := (hp a).prev
  let hp := setNext hp e (some a)
  let hp := setPrev hp e b
  let hp := setPrev hp a (some e)
  match b with
  | some bn => (l, setNext hp bn (some e))
  | none => ({ head := some e, tail := l.tail }, hp)

/-- Remove e: re-links e's neighbours using only e's own link fields; when e
had no prev the head becomes e's next, when e had no next the tail becomes
e's prev. -/
def icmpPacketList.Remove (l : icmpPacketList) (hp : Heap) (e : Nat) :
    icmpPacketList × Heap :=
  let pv := (hp e).prev
  let nx := (hp e).next
  let lhp : icmpPacketList × Heap :=
    match pv with
    | some p => (l, setNext hp p nx)
    | none => ({ head := nx, tail := l.tail }, hp)
  match nx with
  | some n => (lhp.1, setPrev lhp.2 n pv)
  | none => ({ head := lhp.1.head, tail := pv }, lhp.2)

/-- The doubly-linked chain predicate: starting at cursor c whose expected
prev pointer is p, the successive nodes are exactly xs, after which the
traversal state is prev = q, cursor = d. Each node's stored prev field must
point at its predecessor, so a chain that starts at the head and ends with
cursor nil is traversable forwards from the head and backwards from the
tail. -/
def chain (hp : Heap) : Option Nat → Option Nat → List Nat → Option Nat → Option Nat → Prop
  | p, c, [], q, d => q = p ∧ d = c
  | p, c, n :: xs, q, d => c = some n ∧ (hp n).prev = p ∧ chain hp (some n) (hp n).next xs q d

instance chainDec (hp : Heap) (p c : Option Nat) (xs : List Nat) (q d : Option Nat) :
    Decidable (chain hp p c xs q d) :=
  match xs with
  | [] => inferInstanceAs (Decidable (And _ _))
  | n :: xs =>
    have : Decidable (chain hp (some n) (hp n).next xs q d) :=
      chainDec hp (some n) (hp n).next xs q d
    inferInstanceAs (Decidable (And _ (And _ _)))

/-- l represents the node sequence xs: the forward chain from l.head runs
through exactly xs with consistent prev links, ends at cursor nil with
l.tail as the last node, and no node occurs twice. -/
def represents (hp : Heap) (l : icmpPacketList) (xs : List Nat) : Prop :=
  chain hp none l.head xs l.tail none ∧ xs.Nodup

/-- Two lists in a common heap, each representing its node sequence, with no
node reachable from both. -/
def listsSeparate (hp : Heap) (l1 : icmpPacketList) (xs : List Nat)
    (l2 : icmpPacketList) (ys : List Nat) : Prop :=
  represents hp l1 xs ∧ represents hp l2 ys ∧ ∀ n, n ∈ xs → n ∈ ys → False

instance representsDec (hp : Heap) (l : icmpPacketList) (xs : List Nat) :
    Decidable (represents hp l xs) :=
  inferInstanceAs (Decidable (And _ _))

instance listsSeparateDec (hp : Heap) (l1 : icmpPacketList) (xs : List Nat)
    (l2 : icmpPacketList) (ys : List Nat) :
    Decidable (listsSeparate hp l1 xs l2 ys) :=
  decidable_of_iff
    (represents hp l1 xs ∧ represents hp l2 ys ∧ ∀ n ∈ xs, ¬ n ∈ ys) Iff.rfl

/-- A concrete heap: nodes 0 and 1 doubly linked as a two-element list,
every other node with clear links. -/
def hp0 : Heap := fun i =>
  if i = 0 then { next := some 1, prev := none }
  else if i = 1 then { next := none, prev := some 0 }
  else { next := none, prev := none }

/-- The list holding nodes 0 then 1 in hp0. -/
def l01 : icmpPacketList := { head := some 0, tail := some 1 }

/-- The singleton list holding node 2 in hp0. -/
def l2c : icmpPacketList := { head := some 2, tail := some 2 }

/-- A structurally valid ARP Request: 192.168.1.2 (aa:bb:cc:dd:ee:ff) asks
for 192.168.1.1, the spec's literal example scenario. -/
def reqFrame : ARPFrame :=
  { hardwareAddressSpace := 1, protocolAddressSpace := 2048,
    hardwareAddressSize := 6, protocolAddressSize := 4,
    op := ARPRequest,
    hardwareAddressSender := [170, 187, 204, 221, 238, 255],
    protocolAddressSender := [192, 168, 1, 2],
    hardwareAddressTarget := [0, 0, 0, 0, 0, 0],
    protocolAddressTarget := [192, 168, 1, 1] }

/-- An endpoint on NIC 1 whose stack owns 192.168.1.1. -/
def ep1 : endpoint :=
  { nicid := 1, linkMTU := 1500, linkMaxHeaderLength := 14, hasHandler := false,
    checkLocalAddress := fun a => if a = [192, 168, 1, 1] then 1 else 0 }

/-- A route whose local link address is 01:02:03:04:05:06. -/
def r1 : Route := { localLinkAddress := [1, 2, 3, 4, 5, 6] }

/-- A structurally valid ARP Reply whose sender protocol address is
10.0.0.5. -/
def replyFrame5 : ARPFrame :=
  { hardwareAddressSpace := 1, protocolAddressSpace := 2048,
    hardwareAddressSize := 6, protocolAddressSize := 4,
    op := ARPReply,
    hardwareAddressSender := [10, 20, 30, 40, 50, 60],
    protocolAddressSender := [10, 0, 0, 5],
    hardwareAddressTarget := [1, 2, 3, 4, 5, 6],
    protocolAddressTarget := [10, 0, 0, 1] }

/-- A frame that fails structural validation: its hardware address space
field is 7, not Ethernet. -/
def badFrame : ARPFrame :=
  { hardwareAddressSpace := 7, protocolAddressSpace := 2048,
    hardwareAddressSize := 6, protocolAddressSize := 4,
    op := ARPRequest,
    hardwareAddressSender := [10, 20, 30, 40, 50, 60],
    protocolAddressSender := [10, 0, 0, 9],
    hardwareAddressTarget := [0, 0, 0, 0, 0, 0],
    protocolAddressTarget := [10, 0, 0, 1] }

/-- An endpoint whose link MTU (20) is smaller than its max header length. -/
def e20 : endpoint :=
  { nicid := 1, linkMTU := 20, linkMaxHeaderLength := 14, hasHandler := false,
    checkLocalAddress := fun _ => 0 }

/-- Claim C1 (code_bug evaluation). On the spec's literal example Request,
HandlePacket transmits exactly one frame: op = Reply, sender hardware
address = the local link address, sender protocol address = the incoming
target protocol address — but the target protocol-address field is left
holding the incoming target address (192.168.1.1), not the incoming sender
address (192.168.1.2): the sender/target protocol-address swap is only half
performed, so the claimed Reply shape is violated. -/
theorem arp_handlePacket_request_no_swap :
    (endpoint.HandlePacket ep1 r1 reqFrame).transmitted =
      [(14, { reqFrame with
                op := ARPReply,
                hardwareAddressSender := r1.localLinkAddress,
                protocolAddressSender := reqFrame.protocolAddressTarget })] ∧
    ((endpoint.HandlePacket ep1 r1 reqFrame).transmitted.map
        fun t => t.2.protocolAddressTarget) = [reqFrame.protocolAddressTarget] ∧
    reqFrame.protocolAddressTarget ≠ reqFrame.protocolAddressSender := by
  refine ⟨by decide, by decide, by decide⟩

/-- Claim C2 (code_bug evaluation). A resolve call for 10.0.0.5 starting
from the empty registry: the registry is still empty while the call blocks
(its fresh channel 0 was never registered), so a subsequent matching Reply —
even with the waiter ready to receive — notifies nobody, and the call can
only time out. -/
theorem arp_resolve_never_registers :
    (lookupResolve [] [10, 0, 0, 5] 0 none).registryDuringBlock = [] ∧
    waitLookup (lookupResolve [] [10, 0, 0, 5] 0 none).registryDuringBlock 0 = none ∧
    (handleARP (fun _ => 1) (fun _ => true)
        (lookupResolve [] [10, 0, 0, 5] 0 none).registryDuringBlock
        replyFrame5).notified = [] ∧
    (lookupResolve [] [10, 0, 0, 5] 0 none).result = ([], some NetError.timeout) := by
  refine ⟨rfl, rfl, rfl, rfl⟩

/-- After delete(wait, ch), no entry is keyed by ch. -/
theorem waitLookup_waitDelete (w : WaitMap) (ch : ChanId) :
    waitLookup (waitDelete w ch) ch = none := by
  induction w with
  | nil => rfl
  | cons p w ih =>
    obtain ⟨c, a⟩ := p
    by_cases hc : c = ch
    · simp [waitDelete, hc, ih]
    · simp [waitDelete, waitLookup, hc, ih]

/-- Claim C3: a resolve call on which no value is delivered returns the
timeout error after the fixed 15-second window (a delivery attempted at or
after the window still times out), and the registry afterwards holds no
entry for the call's channel; in particular sequential never-replying
resolve calls leave the registry empty after every timeout. -/
theorem arp_resolve_timeout_cleanup :
    (∀ (wait : WaitMap) (addr : Address) (ch : ChanId),
      (lookupResolve wait addr ch none).result = ([], some NetError.timeout) ∧
      waitLookup (lookupResolve wait addr ch none).registryAfter ch = none) ∧
    (∀ (wait : WaitMap) (addr : Address) (ch : ChanId) (t : Nat) (la : LinkAddress),
      arpWait ≤ t →
      (lookupResolve wait addr ch (some (t, la))).result = ([], some NetError.timeout)) ∧
    (∀ calls : List (Address × ChanId), sequentialTimeouts calls = []) := by
  refine ⟨fun wait addr ch => ⟨rfl, waitLookup_waitDelete wait ch⟩,
    fun wait addr ch t la ht => ?_, fun calls => ?_⟩
  · have : ¬ t < arpWait := not_lt.mpr ht
    simp [lookupResolve, this]
  · have aux : ∀ (cs : List (Address × ChanId)),
        List.foldl (fun w c => (lookupResolve w c.1 c.2 none).registryAfter) [] cs = [] := by
      intro cs
      induction cs with
      | nil => rfl
      | cons c cs ih => simpa [lookupResolve, waitDelete] using ih
    exact aux calls

/-- Witness for C3 at concrete inputs: a populated registry, a late arrival
exactly at the window, and a two-call never-replying sequence. -/
theorem arp_resolve_timeout_cleanup_witness :
    (lookupResolve [(7, [9, 9, 9, 9])] [10, 0, 0, 5] 0 none).result
      = ([], some NetError.timeout) ∧
    waitLookup (lookupResolve [(7, [9, 9, 9, 9])] [10, 0, 0, 5] 0 none).registryAfter 0
      = none ∧
    (lookupResolve [] [10, 0, 0, 5] 3 (some (arpWait, [1, 2, 3, 4, 5, 6]))).result
      = ([], some NetError.timeout) ∧
    sequentialTimeouts [([10, 0, 0, 1], 0), ([10, 0, 0, 2], 1)] = [] :=
  ⟨(arp_resolve_timeout_cleanup.1 [(7, [9, 9, 9, 9])] [10, 0, 0, 5] 0).1,
   (arp_resolve_timeout_cleanup.1 [(7, [9, 9, 9, 9])] [10, 0, 0, 5] 0).2,
   arp_resolve_timeout_cleanup.2.1 [] [10, 0, 0, 5] 3 arpWait [1, 2, 3, 4, 5, 6]
     (Nat.le_refl arpWait),
   arp_resolve_timeout_cleanup.2.2 [([10, 0, 0, 1], 0), ([10, 0, 0, 2], 1)]⟩

/-- Claim C4 counterexample: badFrame fails structural validation, yet the
address-resolution subsystem's handler still mutates the cache on it — one
AddLinkAddrCache upsert of the sender mapping is performed, refuting "no
cache mutation occurs in the subsystem's protocol handler". -/
theorem arp_invalid_frame_cache_mutation :
    isValid badFrame = false ∧
    (handleARP (fun _ => 0) (fun _ => false) [] badFrame).cacheOps =
      [(0, [10, 0, 0, 9], [10, 20, 30, 40, 50, 60])] ∧
    (handleARP (fun _ => 0) (fun _ => false) [] badFrame).cacheOps ≠ [] := by
  refine ⟨rfl, rfl, by decide⟩

/-- Claim C4 as amended: on a frame failing structural validation, the ARP
endpoint's HandlePacket transmits nothing and invokes no handler (silent
drop, and it never touches the cache); the subsystem's protocol handler,
which performs no structural validation, still performs its single cache
upsert of the sender mapping (and never transmits). -/
theorem arp_invalid_frame_endpoint_drops :
    ∀ (e : endpoint) (r : Route) (v : ARPFrame), isValid v = false →
      (endpoint.HandlePacket e r v).transmitted = [] ∧
      (endpoint.HandlePacket e r v).handlerArg = none ∧
      ∀ (chk : Address → Nat) (ready : ChanId → Bool) (wait : WaitMap),
        (handleARP chk ready wait v).cacheOps =
          [(chk v.protocolAddressTarget, v.protocolAddressSender, v.hardwareAddressSender)] := by
  intro e r v hv
  refine ⟨?_, ?_, ?_⟩
  · simp [endpoint.HandlePacket, hv]
  · simp [endpoint.HandlePacket, hv]
  · intro chk ready wait
    by_cases hop : v.op = ARPReply <;> simp [handleARP, hop]

/-- Witness for C4's amended theorem at the concrete invalid frame. -/
theorem arp_invalid_frame_endpoint_drops_witness :
    isValid badFrame = false ∧
    (endpoint.HandlePacket ep1 r1 badFrame).transmitted = [] ∧
    (endpoint.HandlePacket ep1 r1 badFrame).handlerArg = none ∧
    (handleARP (fun _ => 2) (fun _ => true) [(4, [10, 0, 0, 9])] badFrame).cacheOps =
      [(2, [10, 0, 0, 9], [10, 20, 30, 40, 50, 60])] :=
  have h := arp_invalid_frame_endpoint_drops ep1 r1 badFrame (by decide)
  ⟨by decide, h.1, h.2.1, h.2.2 (fun _ => 2) (fun _ => true) [(4, [10, 0, 0, 9])]⟩

/-- Claim C5: the subsystem's protocol handler, on every inbound frame of
either operation, performs exactly the upsert of (nic for the target
address, sender protocol address) → sender hardware address; and when the
operation is not Reply it returns (consumed = false) with no waiter
notified and the registry unchanged. -/
theorem arp_handler_learns_always :
    ∀ (chk : Address → Nat) (ready : ChanId → Bool) (wait : WaitMap) (v : ARPFrame),
      (handleARP chk ready wait v).cacheOps =
        [(chk v.protocolAddressTarget, v.protocolAddressSender, v.hardwareAddressSender)] ∧
      (v.op ≠ ARPReply →
        (handleARP chk ready wait v).notified = [] ∧
        (handleARP chk ready wait v).waitAfter = wait ∧
        (handleARP chk ready wait v).consumed = false) := by
  intro chk ready wait v
  by_cases hop : v.op = ARPReply <;> simp [handleARP, hop]

/-- Witness for C5 on a concrete Request frame and non-empty registry. -/
theorem arp_handler_learns_always_witness :
    (handleARP (fun _ => 3) (fun _ => true) [(0, [9, 9, 9, 9])] reqFrame).cacheOps =
      [(3, [192, 168, 1, 2], [170, 187, 204, 221, 238, 255])] ∧
    (handleARP (fun _ => 3) (fun _ => true) [(0, [9, 9, 9, 9])] reqFrame).notified = [] ∧
    (handleARP (fun _ => 3) (fun _ => true) [(0, [9, 9, 9, 9])] reqFrame).waitAfter =
      [(0, [9, 9, 9, 9])] ∧
    (handleARP (fun _ => 3) (fun _ => true) [(0, [9, 9, 9, 9])] reqFrame).consumed = false :=
  have h := arp_handler_learns_always (fun _ => 3) (fun _ => true) [(0, [9, 9, 9, 9])] reqFrame
  ⟨h.1, (h.2 (by decide)).1, (h.2 (by decide)).2.1, (h.2 (by decide)).2.2⟩

/-- Claim C6 (code_bug evaluation): WritePacket on the ARP endpoint does not
return at all — it panics with "arp.WritePacket TODO", aborting the process,
for this (and every) route, header space, payload and transport protocol
number. -/
theorem arp_writePacket_aborts :
    endpoint.WritePacket ep1 r1 42 [1, 2, 3] 6 =
      GoOutcome.panicked "arp.WritePacket TODO" ∧
    ∀ err : Option NetError,
      endpoint.WritePacket ep1 r1 42 [1, 2, 3] 6 ≠ GoOutcome.returns err :=
  ⟨rfl, fun _ h => GoOutcome.noConfusion h⟩

/-- Claim C10: MTU is the uint32 wraparound subtraction of MaxHeaderLength
from the link MTU: added back modulo 2^32 it recovers the link MTU, and
when the link MTU is smaller than MaxHeaderLength the result wraps to
2^32 - (MaxHeaderLength - linkMTU), a positive value rather than a clamped
zero. -/
theorem arp_mtu_wraps :
    ∀ e : endpoint, e.linkMTU < 4294967296 →
      (endpoint.MTU e + endpoint.MaxHeaderLength e) % 4294967296
        = e.linkMTU % 4294967296 ∧
      (e.linkMTU < endpoint.MaxHeaderLength e →
        endpoint.MTU e = 4294967296 - (endpoint.MaxHeaderLength e - e.linkMTU) ∧
        0 < endpoint.MTU e) := by
  intro e he
  simp only [endpoint.MTU, sub32, endpoint.MaxHeaderLength, ARPSize]
  omega

/-- Witness for C10: link MTU 20 against a 42-byte max header length. -/
theorem arp_mtu_wraps_witness :
    e20.linkMTU < 4294967296 ∧ e20.linkMTU < endpoint.MaxHeaderLength e20 ∧
    0 < endpoint.MTU e20 :=
  ⟨by decide, by decide, ((arp_mtu_wraps e20 (by decide)).2 (by decide)).2⟩

/-- Pointwise value of setNext. -/
theorem setNext_apply (hp : Heap) (i : Nat) (v : Option Nat) (j : Nat) :
    setNext hp i v j = if j = i then ⟨v, (hp i).prev⟩ else hp j := rfl

/-- Pointwise value of setPrev. -/
theorem setPrev_apply (hp : Heap) (i : Nat) (v : Option Nat) (j : Nat) :
    setPrev hp i v j = if j = i then ⟨(hp i).next, v⟩ else hp j := rfl

/-- A chain only reads the heap at its own nodes. -/
theorem chain_frame {hp hp2 : Heap} {xs : List Nat}
    (hag : ∀ n ∈ xs, hp2 n = hp n) :
    ∀ {p c q d : Option Nat}, chain hp p c xs q d → chain hp2 p c xs q d := by
  induction xs with
  | nil => intro p c q d h; exact h
  | cons n xs ih =>
    intro p c q d h
    obtain ⟨h1, h2, h3⟩ := h
    have he : hp2 n = hp n := hag n (List.mem_cons_self n xs)
    refine ⟨h1, ?_, ?_⟩
    · rw [he, h2]
    · rw [he]
      exact ih (fun m hm => hag m (List.mem_cons_of_mem n hm)) h3

/-- Chains split and join along list append. -/
theorem chain_append {hp : Heap} :
    ∀ {xs ys : List Nat} {p c q d : Option Nat},
      chain hp p c (xs ++ ys) q d ↔
        ∃ p2 c2, chain hp p c xs p2 c2 ∧ chain hp p2 c2 ys q d := by
  intro xs
  induction xs with
  | nil =>
    intro ys p c q d
    constructor
    · intro h; exact ⟨p, c, ⟨rfl, rfl⟩, h⟩
    · rintro ⟨p2, c2, ⟨rfl, rfl⟩, h⟩; exact h
  | cons n xs ih =>
    intro ys p c q d
    constructor
    · rintro ⟨h1, h2, h3⟩
      obtain ⟨p2, c2, hx, hy⟩ := ih.mp h3
      exact ⟨p2, c2, ⟨h1, h2, hx⟩, hy⟩
    · rintro ⟨p2, c2, ⟨h1, h2, hx⟩, hy⟩
      exact ⟨h1, h2, ih.mpr ⟨p2, c2, hx, hy⟩⟩

/-- A chain whose cursor is nil traverses no nodes. -/
theorem chain_none_cursor {hp : Heap} {xs : List Nat} {p q d : Option Nat}
    (h : chain hp p none xs q d) : xs = [] := by
  cases xs with
  | nil => rfl
  | cons n xs => exact absurd h.1 (by simp)

/-- The final traversal state of a chain ending in node n. -/
theorem chain_last {hp : Heap} {xs : List Nat} {n : Nat} {p c q d : Option Nat}
    (h : chain hp p c (xs ++ [n]) q d) : q = some n ∧ d = (hp n).next := by
  obtain ⟨p2, c2, _, hc2, _, hq, hd⟩ := chain_append.mp h
  exact ⟨hq, hd⟩

/-- The head pointer of a represented list is its first node. -/
theorem represents_head {hp : Heap} {l : icmpPacketList} {xs : List Nat}
    (h : represents hp l xs) : l.head = xs.head? := by
  obtain ⟨hc, _⟩ := h
  cases xs with
  | nil => simpa using hc.2.symm
  | cons n xs => exact hc.1

/-- The tail pointer of a represented list is its last node. -/
theorem represents_tail {hp : Heap} {l : icmpPacketList} {xs : List Nat}
    (h : represents hp l xs) : l.tail = xs.getLast? := by
  obtain ⟨hc, _⟩ := h
  rcases List.eq_nil_or_concat xs with rfl | ⟨ys, n, rfl⟩
  · simpa using hc.1
  · simp only [List.concat_eq_append] at hc ⊢
    rw [(chain_last hc).1, List.getLast?_concat]

/-- A second list over disjoint nodes is untouched by a heap change outside
its nodes. -/
theorem represents_frame {hp hp2 : Heap} {l : icmpPacketList} {ys : List Nat}
    (hag : ∀ n ∈ ys, hp2 n = hp n) (h : represents hp l ys) :
    represents hp2 l ys :=
  ⟨chain_frame hag h.1, h.2⟩

/-- Splitting Nodup across a trailing singleton. -/
theorem nodup_concat_parts {xs : List Nat} {n : Nat} (h : (xs ++ [n]).Nodup) :
    xs.Nodup ∧ n ∉ xs := by
  rw [List.nodup_append] at h
  exact ⟨h.1, fun hm => h.2.2 hm (List.mem_singleton_self n)⟩

/-- Splitting Nodup around a distinguished middle element. -/
theorem nodup_middle_parts {as bs : List Nat} {x : Nat} (h : (as ++ x :: bs).Nodup) :
    as.Nodup ∧ bs.Nodup ∧ x ∉ as ∧ x ∉ bs ∧ ∀ a ∈ as, a ∉ bs := by
  rw [List.nodup_append] at h
  obtain ⟨ha, hxbs, hdisj⟩ := h
  obtain ⟨hxb, hb⟩ := List.nodup_cons.mp hxbs
  exact ⟨ha, hb, fun hm => hdisj hm (List.mem_cons_self x bs), hxb,
    fun a ham hab => hdisj ham (List.mem_cons_of_mem x hab)⟩

/-- PushFront prepends e, touching the heap only at e and the old head. -/
theorem pushFront_spec {hp : Heap} {l : icmpPacketList} {xs : List Nat} {e : Nat}
    (hr : represents hp l xs) (he : e ∉ xs) :
    represents (l.PushFront hp e).2 (l.PushFront hp e).1 (e :: xs) ∧
    ∀ j, j ∉ xs → j ≠ e → (l.PushFront hp e).2 j = hp j := by
  obtain ⟨lh, lt⟩ := l
  obtain ⟨hc, hnd⟩ := hr
  cases xs with
  | nil =>
    obtain ⟨ht, hh⟩ := hc
    subst ht
    subst hh
    have h1e : (setPrev (setNext hp e none) e none) e = ⟨none, none⟩ := by
      simp [setPrev_apply, setNext_apply]
    refine ⟨⟨?_, by simp⟩, ?_⟩
    · show chain (setPrev (setNext hp e none) e none) none (some e) [e] (some e) none
      refine ⟨rfl, ?_, rfl, ?_⟩
      · rw [h1e]
      · rw [h1e]
    · intro j hj hje
      show (setPrev (setNext hp e none) e none) j = hp j
      simp [setPrev_apply, setNext_apply, hje]
  | cons n xs =>
    obtain ⟨hn, hpr, hrest⟩ := hc
    subst hn
    have hen : e ≠ n := fun h => he (h ▸ List.mem_cons_self n xs)
    have hexs : e ∉ xs := fun h => he (List.mem_cons_of_mem n h)
    have hnxs : n ∉ xs := (List.nodup_cons.mp hnd).1
    have h3e : (setPrev (setPrev (setNext hp e (some n)) e none) n (some e)) e
        = ⟨some n, none⟩ := by
      simp [setPrev_apply, setNext_apply, hen]
    have h3n : (setPrev (setPrev (setNext hp e (some n)) e none) n (some e)) n
        = ⟨(hp n).next, some e⟩ := by
      simp [setPrev_apply, setNext_apply, hen, Ne.symm hen]
    refine ⟨⟨?_, by simp [he, hnd]⟩, ?_⟩
    · show chain (setPrev (setPrev (setNext hp e (some n)) e none) n (some e))
        none (some e) (e :: n :: xs) lt none
      refine ⟨rfl, ?_, ?_, ?_, ?_⟩
      · rw [h3e]
      · rw [h3e]
      · rw [h3n]
      · rw [h3n]
        exact chain_frame (fun m hm => by
          have hme : m ≠ e := fun h => hexs (h ▸ hm)
          have hmn : m ≠ n := fun h => hnxs (h ▸ hm)
          simp [setPrev_apply, setNext_apply, hme, hmn]) hrest
    · intro j hj hje
      have hjn : j ≠ n := fun h => hj (h ▸ List.mem_cons_self n xs)
      show (setPrev (setPrev (setNext hp e (some n)) e none) n (some e)) j = hp j
      simp [setPrev_apply, setNext_apply, hje, hjn]

/-- PushBack appends e, touching the heap only at e and the old tail. -/
theorem pushBack_spec {hp : Heap} {l : icmpPacketList} {xs : List Nat} {e : Nat}
    (hr : represents hp l xs) (he : e ∉ xs) :
    represents (l.PushBack hp e).2 (l.PushBack hp e).1 (xs ++ [e]) ∧
    ∀ j, j ∉ xs → j ≠ e → (l.PushBack hp e).2 j = hp j := by
  obtain ⟨lh, lt⟩ := l
  obtain ⟨hc, hnd⟩ := hr
  rcases List.eq_nil_or_concat xs with rfl | ⟨ys, n, hxs⟩
  · obtain ⟨ht, hh⟩ := hc
    subst ht
    subst hh
    have h1e : (setPrev (setNext hp e none) e none) e = ⟨none, none⟩ := by
      simp [setPrev_apply, setNext_apply]
    refine ⟨⟨?_, by simp⟩, ?_⟩
    · show chain (setPrev (setNext hp e none) e none) none (some e) [e] (some e) none
      refine ⟨rfl, ?_, rfl, ?_⟩
      · rw [h1e]
      · rw [h1e]
    · intro j hj hje
      show (setPrev (setNext hp e none) e none) j = hp j
      simp [setPrev_apply, setNext_apply, hje]
  · rw [List.concat_eq_append] at hxs
    subst hxs
    obtain ⟨hys, hnys⟩ := nodup_concat_parts hnd
    have hlt : lt = some n := (chain_last hc).1
    subst hlt
    have hen : e ≠ n := fun h => he (by simp [h])
    have heys : e ∉ ys := fun h => he (by simp [h])
    obtain ⟨p2, c2, hcys, hcn⟩ := chain_append.mp hc
    obtain ⟨hc2, hpn, hq, hd⟩ := hcn
    have h3e : (setNext (setPrev (setNext hp e none) e (some n)) n (some e)) e
        = ⟨none, some n⟩ := by
      simp [setPrev_apply, setNext_apply, hen]
    have h3n : (setNext (setPrev (setNext hp e none) e (some n)) n (some e)) n
        = ⟨some e, (hp n).prev⟩ := by
      simp [setPrev_apply, setNext_apply, hen, Ne.symm hen]
    have hndE : ((ys ++ [n]) ++ [e]).Nodup := by
      rw [List.nodup_append]
      refine ⟨hnd, List.nodup_singleton e, fun a ham hae => ?_⟩
      rw [List.mem_singleton] at hae
      subst hae
      exact he ham
    refine ⟨⟨?_, hndE⟩, ?_⟩
    · show chain (setNext (setPrev (setNext hp e none) e (some n)) n (some e))
        none lh ((ys ++ [n]) ++ [e]) (some e) none
      rw [List.append_assoc]
      refine chain_append.mpr ⟨p2, c2, ?_, ?_⟩
      · exact chain_frame (fun m hm => by
          have hme : m ≠ e := fun h => heys (h ▸ hm)
          have hmn : m ≠ n := fun h => hnys (h ▸ hm)
          simp [setPrev_apply, setNext_apply, hme, hmn]) hcys
      · refine ⟨hc2, ?_, ?_, ?_, rfl, ?_⟩
        · simp [h3n, hpn]
        · simp [h3n]
        · simp [h3e]
        · simp [h3e]
    · intro j hj hje
      have hjn : j ≠ n := fun h => hj (by simp [h])
      show (setNext (setPrev (setNext hp e none) e (some n)) n (some e)) j = hp j
      simp [setPrev_apply, setNext_apply, hje, hjn]

/-- PushBackList splices m onto l and empties m, touching the heap only at
l's old tail and m's old head. -/
theorem pushBackList_spec {hp : Heap} {l m : icmpPacketList} {xs ys : List Nat}
    (hl : represents hp l xs) (hm : represents hp m ys)
    (hdisj : ∀ a, a ∈ xs → a ∈ ys → False) :
    ∃ res : icmpPacketList × icmpPacketList × Heap,
      icmpPacketList.PushBackList l m hp = some res ∧
      represents res.2.2 res.1 (xs ++ ys) ∧
      res.2.1 = { head := none, tail := none } ∧
      ∀ j, j ∉ xs → j ∉ ys → res.2.2 j = hp j := by
  obtain ⟨lh, lt⟩ := l
  obtain ⟨mh, mt⟩ := m
  obtain ⟨hcl, hndl⟩ := hl
  obtain ⟨hcm, hndm⟩ := hm
  cases lh with
  | none =>
    have hxs : xs = [] := chain_none_cursor hcl
    subst hxs
    exact ⟨(⟨mh, mt⟩, ⟨none, none⟩, hp), rfl, ⟨hcm, hndm⟩, rfl, fun j _ _ => rfl⟩
  | some l0 =>
    cases mh with
    | none =>
      have hys : ys = [] := chain_none_cursor hcm
      subst hys
      refine ⟨(⟨some l0, lt⟩, ⟨none, none⟩, hp), rfl, ?_, rfl, fun j _ _ => rfl⟩
      rw [List.append_nil]
      exact ⟨hcl, hndl⟩
    | some m0 =>
      rcases List.eq_nil_or_concat xs with rfl | ⟨zs, n, hxs⟩
      · exact absurd hcl.2 (by simp)
      · rw [List.concat_eq_append] at hxs
        subst hxs
        have hlt : lt = some n := (chain_last hcl).1
        subst hlt
        cases ys with
        | nil => exact absurd hcm.2 (by simp)
        | cons y ys2 =>
          have hym : y = m0 := by
            have := hcm.1
            exact (Option.some.inj this).symm
          subst hym
          obtain ⟨hyprev, hcys2⟩ := hcm.2
          obtain ⟨hzsN, hnzs⟩ := nodup_concat_parts hndl
          obtain ⟨hyys2, hys2N⟩ := List.nodup_cons.mp hndm
          have hnx : n ∈ zs ++ [n] := by simp
          have hny : n ≠ y := fun h =>
            hdisj n hnx (by rw [h]; exact List.mem_cons_self y ys2)
          obtain ⟨p2, c2, hczs, hcn⟩ := chain_append.mp hcl
          obtain ⟨hc2, hprevn, hbase⟩ := hcn
          have h3n : (setPrev (setNext hp n (some y)) y (some n)) n
              = ⟨some y, (hp n).prev⟩ := by
            simp [setPrev_apply, setNext_apply, hny, Ne.symm hny]
          have h3y : (setPrev (setNext hp n (some y)) y (some n)) y
              = ⟨(hp y).next, some n⟩ := by
            simp [setPrev_apply, setNext_apply, hny, Ne.symm hny]
          refine ⟨(⟨some l0, mt⟩, ⟨none, none⟩,
              setPrev (setNext hp n (some y)) y (some n)), rfl, ⟨?_, ?_⟩, rfl, ?_⟩
          · show chain (setPrev (setNext hp n (some y)) y (some n))
              none (some l0) ((zs ++ [n]) ++ y :: ys2) mt none
            rw [List.append_assoc]
            refine chain_append.mpr ⟨p2, c2, ?_, ?_⟩
            · refine chain_frame (fun w hw => ?_) hczs
              have hwn : w ≠ n := fun h => hnzs (h ▸ hw)
              have hwy : w ≠ y := fun h =>
                hdisj w (by simp [hw]) (by rw [h]; exact List.mem_cons_self y ys2)
              simp [setPrev_apply, setNext_apply, hwn, hwy]
            · refine ⟨hc2, ?_, ?_, ?_, ?_⟩
              · simp [h3n, hprevn]
              · simp [h3n]
              · simp [h3y]
              · rw [h3y]
                show chain _ (some y) (hp y).next ys2 mt none
                refine chain_frame (fun w hw => ?_) hcys2
                have hwn : w ≠ n := fun h =>
                  hdisj n hnx (by rw [← h]; exact List.mem_cons_of_mem y hw)
                have hwy : w ≠ y := fun h => hyys2 (h ▸ hw)
                simp [setPrev_apply, setNext_apply, hwn, hwy]
          · rw [List.nodup_append]
            exact ⟨hndl, hndm, fun a ha hb => hdisj a ha hb⟩
          · intro j hjx hjy
            have hjn : j ≠ n := fun h => hjx (by simp [h])
            have hjy2 : j ≠ y := fun h => hjy (by rw [h]; exact List.mem_cons_self y ys2)
            show (setPrev (setNext hp n (some y)) y (some n)) j = hp j
            simp [setPrev_apply, setNext_apply, hjn, hjy2]

/-- Remove detaches x from its list, touching the heap only at x's
neighbours; head and tail are updated when x was an endpoint. -/
theorem remove_spec {hp : Heap} {l : icmpPacketList} {as bs : List Nat} {x : Nat}
    (hr : represents hp l (as ++ x :: bs)) :
    represents (l.Remove hp x).2 (l.Remove hp x).1 (as ++ bs) ∧
    ∀ j, j ∉ as ++ x :: bs → (l.Remove hp x).2 j = hp j := by
  obtain ⟨lh, lt⟩ := l
  obtain ⟨hc, hnd⟩ := hr
  obtain ⟨hasN, hbsN, hxas, hxbs, habs⟩ := nodup_middle_parts hnd
  obtain ⟨p2, c2, hcas, hcx⟩ := chain_append.mp hc
  obtain ⟨hc2, hpx, hcbs⟩ := hcx
  rcases List.eq_nil_or_concat as with rfl | ⟨zs, a, has⟩
  · obtain ⟨hp2e, hc2e⟩ := hcas
    subst hp2e
    cases bs with
    | nil =>
      obtain ⟨hlt, hnxe⟩ := hcbs
      have hev : icmpPacketList.Remove ⟨lh, lt⟩ hp x = (⟨none, none⟩, hp) := by
        simp only [icmpPacketList.Remove, hpx, ← hnxe]
      rw [hev]
      exact ⟨⟨⟨rfl, rfl⟩, List.nodup_nil⟩, fun j _ => rfl⟩
    | cons n bs2 =>
      obtain ⟨hnxe, hnprev, hcbs2⟩ := hcbs
      have hnbs2 : n ∉ bs2 := (List.nodup_cons.mp hbsN).1
      have hev : icmpPacketList.Remove ⟨lh, lt⟩ hp x
          = (⟨some n, lt⟩, setPrev hp n none) := by
        simp only [icmpPacketList.Remove, hpx, hnxe]
      rw [hev]
      have h2n : (setPrev hp n none) n = ⟨(hp n).next, none⟩ := by
        simp [setPrev_apply]
      refine ⟨⟨?_, by simpa using hbsN⟩, ?_⟩
      · show chain (setPrev hp n none) none (some n) (n :: bs2) lt none
        refine ⟨rfl, ?_, ?_⟩
        · rw [h2n]
        · rw [h2n]
          show chain _ (some n) (hp n).next bs2 lt none
          refine chain_frame (fun w hw => ?_) hcbs2
          have hwn : w ≠ n := fun h => hnbs2 (h ▸ hw)
          simp [setPrev_apply, hwn]
      · intro j hj
        have hjn : j ≠ n := fun h => hj (by simp [h])
        show (setPrev hp n none) j = hp j
        simp [setPrev_apply, hjn]
  · rw [List.concat_eq_append] at has
    subst has
    obtain ⟨hzsN, hazs⟩ := nodup_concat_parts hasN
    obtain ⟨p3, c3, hczs, hca⟩ := chain_append.mp hcas
    obtain ⟨hc3, haprev, habase⟩ := hca
    obtain ⟨hp2a, hc2a⟩ := habase
    have hpxa : (hp x).prev = some a := by rw [hpx, hp2a]
    cases bs with
    | nil =>
      obtain ⟨hlt, hnxe⟩ := hcbs
      have hev : icmpPacketList.Remove ⟨lh, lt⟩ hp x
          = (⟨lh, some a⟩, setNext hp a none) := by
        simp only [icmpPacketList.Remove, hpxa, ← hnxe]
      rw [hev]
      have h2a : (setNext hp a none) a = ⟨none, (hp a).prev⟩ := by
        simp [setNext_apply]
      refine ⟨⟨?_, by simpa using hasN⟩, ?_⟩
      · rw [List.append_nil]
        show chain (setNext hp a none) none lh (zs ++ [a]) (some a) none
        refine chain_append.mpr ⟨p3, c3, ?_, ?_⟩
        · refine chain_frame (fun w hw => ?_) hczs
          have hwa : w ≠ a := fun h => hazs (h ▸ hw)
          simp [setNext_apply, hwa]
        · refine ⟨hc3, ?_, rfl, ?_⟩
          · simp [h2a, haprev]
          · simp [h2a]
      · intro j hj
        have hja : j ≠ a := fun h => hj (by simp [h])
        show (setNext hp a none) j = hp j
        simp [setNext_apply, hja]
    | cons n bs2 =>
      obtain ⟨hnxe, hnprev, hcbs2⟩ := hcbs
      have hnbs2 : n ∉ bs2 := (List.nodup_cons.mp hbsN).1
      have han : a ≠ n := fun h =>
        habs a (by simp) (by rw [h]; exact List.mem_cons_self n bs2)
      have hev : icmpPacketList.Remove ⟨lh, lt⟩ hp x
          = (⟨lh, lt⟩, setPrev (setNext hp a (some n)) n (some a)) := by
        simp only [icmpPacketList.Remove, hpxa, hnxe]
      rw [hev]
      have h2a : (setPrev (setNext hp a (some n)) n (some a)) a
          = ⟨some n, (hp a).prev⟩ := by
        simp [setPrev_apply, setNext_apply, han, Ne.symm han]
      have h2n : (setPrev (setNext hp a (some n)) n (some a)) n
          = ⟨(hp n).next, some a⟩ := by
        simp [setPrev_apply, setNext_apply, han, Ne.symm han]
      refine ⟨⟨?_, ?_⟩, ?_⟩
      · show chain (setPrev (setNext hp a (some n)) n (some a)) none lh
          ((zs ++ [a]) ++ n :: bs2) lt none
        rw [List.append_assoc]
        refine chain_append.mpr ⟨p3, c3, ?_, ?_⟩
        · refine chain_frame (fun w hw => ?_) hczs
          have hwa : w ≠ a := fun h => hazs (h ▸ hw)
          have hwn : w ≠ n := fun h =>
            habs w (by simp [hw]) (by rw [h]; exact List.mem_cons_self n bs2)
          simp [setPrev_apply, setNext_apply, hwa, hwn]
        · refine ⟨hc3, ?_, ?_, ?_, ?_⟩
          · simp [h2a, haprev]
          · simp [h2a]
          · simp [h2n]
          · rw [h2n]
            show chain _ (some n) (hp n).next bs2 lt none
            refine chain_frame (fun w hw => ?_) hcbs2
            have hwn : w ≠ n := fun h => hnbs2 (h ▸ hw)
            have hwa : w ≠ a := fun h =>
              habs a (by simp) (by rw [← h]; exact List.mem_cons_of_mem n hw)
            simp [setPrev_apply, setNext_apply, hwn, hwa]
      · rw [List.nodup_append]
        exact ⟨hasN, hbsN, fun w hw hwb => habs w hw hwb⟩
      · intro j hj
        have hja : j ≠ a := fun h => hj (by simp [h])
        have hjn : j ≠ n := fun h => hj (by simp [h])
        show (setPrev (setNext hp a (some n)) n (some a)) j = hp j
        simp [setPrev_apply, setNext_apply, hja, hjn]

/-- InsertAfter splices e directly after member b, touching the heap only at
e, b and b's old successor. -/
theorem insertAfter_spec {hp : Heap} {l : icmpPacketList} {as bs : List Nat} {b e : Nat}
    (hr : represents hp l (as ++ b :: bs)) (he : e ∉ as ++ b :: bs) :
    represents (l.InsertAfter hp b e).2 (l.InsertAfter hp b e).1 (as ++ b :: e :: bs) ∧
    ∀ j, j ∉ as ++ b :: bs → j ≠ e → (l.InsertAfter hp b e).2 j = hp j := by
  obtain ⟨lh, lt⟩ := l
  obtain ⟨hc, hnd⟩ := hr
  obtain ⟨hasN, hbsN, hbas, hbbs, habs⟩ := nodup_middle_parts hnd
  obtain ⟨p2, c2, hcas, hcb⟩ := chain_append.mp hc
  obtain ⟨hc2, hbprev, hcbs⟩ := hcb
  have heb : e ≠ b := fun h => he (by simp [h])
  have heas : e ∉ as := fun h => he (by simp [h])
  have hebs : e ∉ bs := fun h => he (by simp [h])
  cases bs with
  | nil =>
    obtain ⟨hlt, hnxe⟩ := hcbs
    have hev : icmpPacketList.InsertAfter ⟨lh, lt⟩ hp b e
        = (⟨lh, some e⟩, setNext (setPrev (setNext hp e none) e (some b)) b (some e)) := by
      simp only [icmpPacketList.InsertAfter, ← hnxe]
    rw [hev]
    have h3e : (setNext (setPrev (setNext hp e none) e (some b)) b (some e)) e
        = ⟨none, some b⟩ := by
      simp [setPrev_apply, setNext_apply, heb]
    have h3b : (setNext (setPrev (setNext hp e none) e (some b)) b (some e)) b
        = ⟨some e, (hp b).prev⟩ := by
      simp [setPrev_apply, setNext_apply, heb, Ne.symm heb]
    refine ⟨⟨?_, ?_⟩, ?_⟩
    · show chain (setNext (setPrev (setNext hp e none) e (some b)) b (some e))
        none lh (as ++ [b, e]) (some e) none
      refine chain_append.mpr ⟨p2, c2, ?_, ?_⟩
      · refine chain_frame (fun w hw => ?_) hcas
        have hwe : w ≠ e := fun h => heas (h ▸ hw)
        have hwb : w ≠ b := fun h => hbas (h ▸ hw)
        simp [setPrev_apply, setNext_apply, hwe, hwb]
      · refine ⟨hc2, ?_, ?_, ?_, rfl, ?_⟩
        · simp [h3b, hbprev]
        · simp [h3b]
        · simp [h3e]
        · simp [h3e]
    · rw [List.nodup_append]
      refine ⟨hasN, ?_, fun w hw hmem => ?_⟩
      · exact List.nodup_cons.mpr ⟨by simp [Ne.symm heb], List.nodup_singleton e⟩
      · simp only [List.mem_cons, List.mem_singleton] at hmem
        rcases hmem with rfl | rfl | h
        · exact hbas hw
        · exact heas hw
        · exact absurd h (List.not_mem_nil w)
    · intro j hj hje
      have hjb : j ≠ b := fun h => hj (by simp [h])
      show (setNext (setPrev (setNext hp e none) e (some b)) b (some e)) j = hp j
      simp [setPrev_apply, setNext_apply, hje, hjb]
  | cons n bs2 =>
    obtain ⟨hnxe, hnprev, hcbs2⟩ := hcbs
    have hbn : b ≠ n := fun h => hbbs (h ▸ List.mem_cons_self n bs2)
    have hen : e ≠ n := fun h => hebs (h ▸ List.mem_cons_self n bs2)
    have hnbs2 : n ∉ bs2 := (List.nodup_cons.mp hbsN).1
    have hev : icmpPacketList.InsertAfter ⟨lh, lt⟩ hp b e
        = (⟨lh, lt⟩, setPrev (setNext (setPrev (setNext hp e (some n)) e (some b))
            b (some e)) n (some e)) := by
      simp only [icmpPacketList.InsertAfter, hnxe]
    rw [hev]
    have h4e : (setPrev (setNext (setPrev (setNext hp e (some n)) e (some b))
        b (some e)) n (some e)) e = ⟨some n, some b⟩ := by
      simp [setPrev_apply, setNext_apply, heb, hen]
    have h4b : (setPrev (setNext (setPrev (setNext hp e (some n)) e (some b))
        b (some e)) n (some e)) b = ⟨some e, (hp b).prev⟩ := by
      simp [setPrev_apply, setNext_apply, Ne.symm heb, hbn]
    have h4n : (setPrev (setNext (setPrev (setNext hp e (some n)) e (some b))
        b (some e)) n (some e)) n = ⟨(hp n).next, some e⟩ := by
      simp [setPrev_apply, setNext_apply, Ne.symm hen, Ne.symm hbn]
    refine ⟨⟨?_, ?_⟩, ?_⟩
    · show chain (setPrev (setNext (setPrev (setNext hp e (some n)) e (some b))
          b (some e)) n (some e)) none lh (as ++ b :: e :: n :: bs2) lt none
      refine chain_append.mpr ⟨p2, c2, ?_, ?_⟩
      · refine chain_frame (fun w hw => ?_) hcas
        have hwe : w ≠ e := fun h => heas (h ▸ hw)
        have hwb : w ≠ b := fun h => hbas (h ▸ hw)
        have hwn : w ≠ n := fun h =>
          habs w hw (by rw [h]; exact List.mem_cons_self n bs2)
        simp [setPrev_apply, setNext_apply, hwe, hwb, hwn]
      · refine ⟨hc2, ?_, ?_, ?_, ?_, ?_, ?_⟩
        · simp [h4b, hbprev]
        · simp [h4b]
        · simp [h4e]
        · simp [h4e]
        · simp [h4n]
        · rw [h4n]
          show chain _ (some n) (hp n).next bs2 lt none
          refine chain_frame (fun w hw => ?_) hcbs2
          have hwe : w ≠ e := fun h => hebs (h ▸ List.mem_cons_of_mem n hw)
          have hwb : w ≠ b := fun h => hbbs (h ▸ List.mem_cons_of_mem n hw)
          have hwn : w ≠ n := fun h => hnbs2 (h ▸ hw)
          simp [setPrev_apply, setNext_apply, hwe, hwb, hwn]
    · rw [List.nodup_append]
      refine ⟨hasN, ?_, fun w hw hmem => ?_⟩
      · refine List.nodup_cons.mpr ⟨?_, List.nodup_cons.mpr ⟨fun hmem => hebs hmem, hbsN⟩⟩
        intro hmem
        rcases List.mem_cons.mp hmem with h | hmem2
        · exact heb h.symm
        · exact hbbs hmem2
      · rcases List.mem_cons.mp hmem with h | hmem2
        · exact hbas (h ▸ hw)
        rcases List.mem_cons.mp hmem2 with h | hmem3
        · exact heas (h ▸ hw)
        · exact habs w hw hmem3
    · intro j hj hje
      have hjb : j ≠ b := fun h => hj (by simp [h])
      have hjn : j ≠ n := fun h => hj (by simp [h])
      show (setPrev (setNext (setPrev (setNext hp e (some n)) e (some b))
          b (some e)) n (some e)) j = hp j
      simp [setPrev_apply, setNext_apply, hje, hjb, hjn]

/-- InsertBefore splices e directly before member a, touching the heap only
at e, a and a's old predecessor. -/
theorem insertBefore_spec {hp : Heap} {l : icmpPacketList} {as bs : List Nat} {a e : Nat}
    (hr : represents hp l (as ++ a :: bs)) (he : e ∉ as ++ a :: bs) :
    represents (l.InsertBefore hp a e).2 (l.InsertBefore hp a e).1 (as ++ e :: a :: bs) ∧
    ∀ j, j ∉ as ++ a :: bs → j ≠ e → (l.InsertBefore hp a e).2 j = hp j := by
  obtain ⟨lh, lt⟩ := l
  obtain ⟨hc, hnd⟩ := hr
  obtain ⟨hasN, hbsN, haas, habsx, habs⟩ := nodup_middle_parts hnd
  obtain ⟨p2, c2, hcas, hca⟩ := chain_append.mp hc
  obtain ⟨hc2, haprev, hcbs⟩ := hca
  have hea : e ≠ a := fun h => he (by simp [h])
  have heas : e ∉ as := fun h => he (by simp [h])
  have hebs : e ∉ bs := fun h => he (by simp [h])
  rcases List.eq_nil_or_concat as with rfl | ⟨zs, bn, has⟩
  · obtain ⟨hp2e, hc2e⟩ := hcas
    subst hp2e
    have hlh : lh = some a := hc2e.symm.trans hc2
    have hev : icmpPacketList.InsertBefore ⟨lh, lt⟩ hp a e
        = (⟨some e, lt⟩, setPrev (setPrev (setNext hp e (some a)) e none) a (some e)) := by
      simp only [icmpPacketList.InsertBefore, haprev]
    rw [hev]
    have h3e : (setPrev (setPrev (setNext hp e (some a)) e none) a (some e)) e
        = ⟨some a, none⟩ := by
      simp [setPrev_apply, setNext_apply, hea]
    have h3a : (setPrev (setPrev (setNext hp e (some a)) e none) a (some e)) a
        = ⟨(hp a).next, some e⟩ := by
      simp [setPrev_apply, setNext_apply, hea, Ne.symm hea]
    refine ⟨⟨?_, ?_⟩, ?_⟩
    · show chain (setPrev (setPrev (setNext hp e (some a)) e none) a (some e))
        none (some e) (e :: a :: bs) lt none
      refine ⟨rfl, ?_, ?_, ?_, ?_⟩
      · simp [h3e]
      · simp [h3e]
      · simp [h3a]
      · rw [h3a]
        show chain _ (some a) (hp a).next bs lt none
        refine chain_frame (fun w hw => ?_) hcbs
        have hwe : w ≠ e := fun h => hebs (h ▸ hw)
        have hwa : w ≠ a := fun h => habsx (h ▸ hw)
        simp [setPrev_apply, setNext_apply, hwe, hwa]
    · refine List.nodup_cons.mpr ⟨?_, hnd⟩
      intro hmem
      rcases List.mem_cons.mp hmem with h | hmem2
      · exact hea h
      · exact hebs hmem2
    · intro j hj hje
      have hja : j ≠ a := fun h => hj (by simp [h])
      show (setPrev (setPrev (setNext hp e (some a)) e none) a (some e)) j = hp j
      simp [setPrev_apply, setNext_apply, hje, hja]
  · rw [List.concat_eq_append] at has
    subst has
    obtain ⟨hzsN, hbnzs⟩ := nodup_concat_parts hasN
    obtain ⟨p3, c3, hczs, hcbn⟩ := chain_append.mp hcas
    obtain ⟨hc3, hbnprev, hbnbase⟩ := hcbn
    obtain ⟨hp2bn, hc2bn⟩ := hbnbase
    have hapbn : (hp a).prev = some bn := by rw [haprev, hp2bn]
    have habn : a ≠ bn := fun h => haas (by simp [h])
    have hebn : e ≠ bn := fun h => heas (by simp [h])
    have hev : icmpPacketList.InsertBefore ⟨lh, lt⟩ hp a e
        = (⟨lh, lt⟩, setNext (setPrev (setPrev (setNext hp e (some a)) e (some bn))
            a (some e)) bn (some e)) := by
      simp only [icmpPacketList.InsertBefore, hapbn]
    rw [hev]
    have h4e : (setNext (setPrev (setPrev (setNext hp e (some a)) e (some bn))
        a (some e)) bn (some e)) e = ⟨some a, some bn⟩ := by
      simp [setPrev_apply, setNext_apply, hea, hebn]
    have h4a : (setNext (setPrev (setPrev (setNext hp e (some a)) e (some bn))
        a (some e)) bn (some e)) a = ⟨(hp a).next, some e⟩ := by
      simp [setPrev_apply, setNext_apply, Ne.symm hea, habn]
    have h4bn : (setNext (setPrev (setPrev (setNext hp e (some a)) e (some bn))
        a (some e)) bn (some e)) bn = ⟨some e, (hp bn).prev⟩ := by
      simp [setPrev_apply, setNext_apply, Ne.symm hebn, Ne.symm habn]
    refine ⟨⟨?_, ?_⟩, ?_⟩
    · show chain (setNext (setPrev (setPrev (setNext hp e (some a)) e (some bn))
          a (some e)) bn (some e)) none lh ((zs ++ [bn]) ++ e :: a :: bs) lt none
      rw [List.append_assoc]
      refine chain_append.mpr ⟨p3, c3, ?_, ?_⟩
      · refine chain_frame (fun w hw => ?_) hczs
        have hwe : w ≠ e := fun h => heas (h ▸ by simp [hw])
        have hwa : w ≠ a := fun h => haas (h ▸ by simp [hw])
        have hwbn : w ≠ bn := fun h => hbnzs (h ▸ hw)
        simp [setPrev_apply, setNext_apply, hwe, hwa, hwbn]
      · refine ⟨hc3, ?_, ?_, ?_, ?_, ?_, ?_⟩
        · simp [h4bn, hbnprev]
        · simp [h4bn]
        · simp [h4e]
        · simp [h4e]
        · simp [h4a]
        · rw [h4a]
          show chain _ (some a) (hp a).next bs lt none
          refine chain_frame (fun w hw => ?_) hcbs
          have hwe : w ≠ e := fun h => hebs (h ▸ hw)
          have hwa : w ≠ a := fun h => habsx (h ▸ hw)
          have hwbn : w ≠ bn := fun h =>
            habs bn (by simp) (by rw [← h]; exact hw)
          simp [setPrev_apply, setNext_apply, hwe, hwa, hwbn]
    · rw [List.nodup_append]
      refine ⟨hasN, ?_, fun w hw hmem => ?_⟩
      · refine List.nodup_cons.mpr ⟨?_, List.nodup_cons.mpr ⟨habsx, hbsN⟩⟩
        intro hmem
        rcases List.mem_cons.mp hmem with h | hmem2
        · exact hea h
        · exact hebs hmem2
      · rcases List.mem_cons.mp hmem with h | hmem2
        · exact heas (h ▸ hw)
        rcases List.mem_cons.mp hmem2 with h | hmem3
        · exact haas (h ▸ hw)
        · exact habs w hw hmem3
    · intro j hj hje
      have hja : j ≠ a := fun h => hj (by simp [h])
      have hjbn : j ≠ bn := fun h => hj (by simp [h])
      show (setNext (setPrev (setPrev (setNext hp e (some a)) e (some bn))
          a (some e)) bn (some e)) j = hp j
      simp [setPrev_apply, setNext_apply, hje, hja, hjbn]

/-- Claim C7: Reset, PushFront, PushBack, PushBackList, InsertAfter,
InsertBefore and Remove each preserve the list invariant: head and tail
remain consistent with the chain of link fields (the forward chain from the
head visits exactly the list's nodes with matching prev links, ending at the
tail), and — given the membership preconditions on the arguments — a second
list over disjoint nodes is untouched and stays disjoint, so no node is
reachable from two lists simultaneously. -/
theorem icmpPacketList_ops_preserve_invariant :
    (∀ (hp : Heap) (l1 : icmpPacketList) (xs : List Nat)
        (l2 : icmpPacketList) (ys : List Nat),
      listsSeparate hp l1 xs l2 ys →
      listsSeparate hp l1.Reset [] l2 ys) ∧
    (∀ (hp : Heap) (l1 : icmpPacketList) (xs : List Nat)
        (l2 : icmpPacketList) (ys : List Nat) (e : Nat),
      listsSeparate hp l1 xs l2 ys → e ∉ xs → e ∉ ys →
      listsSeparate (l1.PushFront hp e).2 (l1.PushFront hp e).1 (e :: xs) l2 ys) ∧
    (∀ (hp : Heap) (l1 : icmpPacketList) (xs : List Nat)
        (l2 : icmpPacketList) (ys : List Nat) (e : Nat),
      listsSeparate hp l1 xs l2 ys → e ∉ xs → e ∉ ys →
      listsSeparate (l1.PushBack hp e).2 (l1.PushBack hp e).1 (xs ++ [e]) l2 ys) ∧
    (∀ (hp : Heap) (l1 : icmpPacketList) (xs : List Nat)
        (l2 : icmpPacketList) (ys : List Nat),
      listsSeparate hp l1 xs l2 ys →
      ∃ res : icmpPacketList × icmpPacketList × Heap,
        l1.PushBackList l2 hp = some res ∧
        listsSeparate res.2.2 res.1 (xs ++ ys) res.2.1 []) ∧
    (∀ (hp : Heap) (l1 : icmpPacketList) (as : List Nat) (b : Nat) (bs : List Nat)
        (l2 : icmpPacketList) (ys : List Nat) (e : Nat),
      listsSeparate hp l1 (as ++ b :: bs) l2 ys → e ∉ as ++ b :: bs → e ∉ ys →
      listsSeparate (l1.InsertAfter hp b e).2 (l1.InsertAfter hp b e).1
        (as ++ b :: e :: bs) l2 ys) ∧
    (∀ (hp : Heap) (l1 : icmpPacketList) (as : List Nat) (a : Nat) (bs : List Nat)
        (l2 : icmpPacketList) (ys : List Nat) (e : Nat),
      listsSeparate hp l1 (as ++ a :: bs) l2 ys → e ∉ as ++ a :: bs → e ∉ ys →
      listsSeparate (l1.InsertBefore hp a e).2 (l1.InsertBefore hp a e).1
        (as ++ e :: a :: bs) l2 ys) ∧
    (∀ (hp : Heap) (l1 : icmpPacketList) (as : List Nat) (x : Nat) (bs : List Nat)
        (l2 : icmpPacketList) (ys : List Nat),
      listsSeparate hp l1 (as ++ x :: bs) l2 ys →
      listsSeparate (l1.Remove hp x).2 (l1.Remove hp x).1 (as ++ bs) l2 ys) := by
  refine ⟨?_, ?_, ?_, ?_, ?_, ?_, ?_⟩
  · rintro hp l1 xs l2 ys ⟨h1, h2, hd⟩
    exact ⟨⟨⟨rfl, rfl⟩, List.nodup_nil⟩, h2, fun n hn _ => absurd hn (List.not_mem_nil n)⟩
  · rintro hp l1 xs l2 ys e ⟨h1, h2, hd⟩ hex hey
    obtain ⟨hrep, hun⟩ := pushFront_spec h1 hex
    refine ⟨hrep, represents_frame (fun w hw =>
      hun w (fun hm => hd w hm hw) (fun hq => hey (hq ▸ hw))) h2, ?_⟩
    intro n hn hny
    rcases List.mem_cons.mp hn with rfl | hnxs
    · exact hey hny
    · exact hd n hnxs hny
  · rintro hp l1 xs l2 ys e ⟨h1, h2, hd⟩ hex hey
    obtain ⟨hrep, hun⟩ := pushBack_spec h1 hex
    refine ⟨hrep, represents_frame (fun w hw =>
      hun w (fun hm => hd w hm hw) (fun hq => hey (hq ▸ hw))) h2, ?_⟩
    intro n hn hny
    rcases List.mem_append.mp hn with hnxs | hne
    · exact hd n hnxs hny
    · rw [List.mem_singleton] at hne
      subst hne
      exact hey hny
  · rintro hp l1 xs l2 ys ⟨h1, h2, hd⟩
    obtain ⟨res, hres, hrep, hm, _⟩ := pushBackList_spec h1 h2 hd
    refine ⟨res, hres, hrep, ?_, fun n _ hn => absurd hn (List.not_mem_nil n)⟩
    rw [hm]
    exact ⟨⟨rfl, rfl⟩, List.nodup_nil⟩
  · rintro hp l1 as b bs l2 ys e ⟨h1, h2, hd⟩ hex hey
    obtain ⟨hrep, hun⟩ := insertAfter_spec h1 hex
    refine ⟨hrep, represents_frame (fun w hw =>
      hun w (fun hm => hd w hm hw) (fun hq => hey (hq ▸ hw))) h2, ?_⟩
    intro n hn hny
    rcases List.mem_append.mp hn with hna | hnc
    · exact hd n (List.mem_append.mpr (Or.inl hna)) hny
    · rcases List.mem_cons.mp hnc with rfl | hnc2
      · exact hd n (List.mem_append.mpr (Or.inr (List.mem_cons_self n bs))) hny
      rcases List.mem_cons.mp hnc2 with rfl | hnc3
      · exact hey hny
      · exact hd n (List.mem_append.mpr (Or.inr (List.mem_cons_of_mem b hnc3))) hny
  · rintro hp l1 as a bs l2 ys e ⟨h1, h2, hd⟩ hex hey
    obtain ⟨hrep, hun⟩ := insertBefore_spec h1 hex
    refine ⟨hrep, represents_frame (fun w hw =>
      hun w (fun hm => hd w hm hw) (fun hq => hey (hq ▸ hw))) h2, ?_⟩
    intro n hn hny
    rcases List.mem_append.mp hn with hna | hnc
    · exact hd n (List.mem_append.mpr (Or.inl hna)) hny
    · rcases List.mem_cons.mp hnc with rfl | hnc2
      · exact hey hny
      rcases List.mem_cons.mp hnc2 with rfl | hnc3
      · exact hd n (List.mem_append.mpr (Or.inr (List.mem_cons_self n bs))) hny
      · exact hd n (List.mem_append.mpr (Or.inr (List.mem_cons_of_mem a hnc3))) hny
  · rintro hp l1 as x bs l2 ys ⟨h1, h2, hd⟩
    obtain ⟨hrep, hun⟩ := remove_spec h1
    refine ⟨hrep, represents_frame (fun w hw =>
      hun w (fun hm => hd w hm hw)) h2, ?_⟩
    intro n hn hny
    refine hd n ?_ hny
    rcases List.mem_append.mp hn with h | h
    · exact List.mem_append.mpr (Or.inl h)
    · exact List.mem_append.mpr (Or.inr (List.mem_cons_of_mem x h))

/-- Witness for C7: removing node 1 from the two-element list [0, 1] in the
concrete heap, alongside the disjoint singleton list [2]. -/
theorem icmpPacketList_ops_preserve_invariant_witness :
    listsSeparate (icmpPacketList.Remove l01 hp0 1).2 (icmpPacketList.Remove l01 hp0 1).1
      ([0] ++ []) l2c [2] :=
  icmpPacketList_ops_preserve_invariant.2.2.2.2.2.2 hp0 l01 [0] 1 [] l2c [2] (by decide)

/-- Claim C8: PushBackList(B) on A yields A's elements followed by B's, in
order, and leaves B empty, for every pair of disjoint valid lists, whether
or not either is empty. -/
theorem icmpPacketList_pushBackList_splices :
    ∀ (hp : Heap) (A : icmpPacketList) (xs : List Nat) (B : icmpPacketList) (ys : List Nat),
      represents hp A xs → represents hp B ys → (∀ n, n ∈ xs → n ∈ ys → False) →
      ∃ res : icmpPacketList × icmpPacketList × Heap,
        A.PushBackList B hp = some res ∧
        represents res.2.2 res.1 (xs ++ ys) ∧
        res.2.1 = { head := none, tail := none } ∧
        res.2.1.Empty = true ∧
        represents res.2.2 res.2.1 [] := by
  intro hp A xs B ys h1 h2 hd
  obtain ⟨res, hres, hrep, hm, _⟩ := pushBackList_spec h1 h2 hd
  refine ⟨res, hres, hrep, hm, ?_, ?_⟩
  · rw [hm]
    rfl
  · rw [hm]
    exact ⟨⟨rfl, rfl⟩, List.nodup_nil⟩

/-- Witness for C8: splicing the singleton [2] onto the two-element
list [0, 1]. -/
theorem icmpPacketList_pushBackList_splices_witness :
    ∃ res : icmpPacketList × icmpPacketList × Heap,
      icmpPacketList.PushBackList l01 l2c hp0 = some res ∧
      represents res.2.2 res.1 ([0, 1] ++ [2]) ∧
      res.2.1 = { head := none, tail := none } ∧
      res.2.1.Empty = true ∧
      represents res.2.2 res.2.1 [] :=
  icmpPacketList_pushBackList_splices hp0 l01 [0, 1] l2c [2]
    (by decide) (by decide) (by decide)

/-- Claim C9: after Remove(x) on a list containing x, a forward traversal
visits exactly the other elements (so never x), and Front/Back equal the
head and last of the remaining sequence — in particular both become nil when
x was the sole element. -/
theorem icmpPacketList_remove_correct :
    ∀ (hp : Heap) (l : icmpPacketList) (xs : List Nat) (x : Nat),
      represents hp l xs → x ∈ xs →
      represents (l.Remove hp x).2 (l.Remove hp x).1 (xs.erase x) ∧
      x ∉ xs.erase x ∧
      (l.Remove hp x).1.Front = (xs.erase x).head? ∧
      (l.Remove hp x).1.Back = (xs.erase x).getLast? := by
  intro hp l xs x hr hmem
  obtain ⟨as, bs, rfl⟩ := List.append_of_mem hmem
  obtain ⟨hasN, hbsN, hxas, hxbs, habs⟩ := nodup_middle_parts hr.2
  have herase : (as ++ x :: bs).erase x = as ++ bs := by
    rw [List.erase_append_right _ hxas, List.erase_cons_head]
  obtain ⟨hrep, _⟩ := remove_spec hr
  rw [herase]
  refine ⟨hrep, ?_, represents_head hrep, represents_tail hrep⟩
  intro hmem2
  rcases List.mem_append.mp hmem2 with h | h
  · exact hxas h
  · exact hxbs h

/-- Witness for C9: removing the tail node 1 from the list [0, 1]. -/
theorem icmpPacketList_remove_correct_witness :
    represents (icmpPacketList.Remove l01 hp0 1).2 (icmpPacketList.Remove l01 hp0 1).1
      ([0, 1].erase 1) ∧
    1 ∉ [0, 1].erase 1 ∧
    (icmpPacketList.Remove l01 hp0 1).1.Front = ([0, 1].erase 1).head? ∧
    (icmpPacketList.Remove l01 hp0 1).1.Back = ([0, 1].erase 1).getLast? :=
  icmpPacketList_remove_correct hp0 l01 [0, 1] 1 (by decide) (by decide)
